import Mathlib

/-!
Shallow embedding of `src/parser.rs` (binary-format decoding toolkit:
checked/trusted byte-stream readers, lazy arrays, offsets).

Conventions of the embedding:
* Byte buffers are `List Nat`; each byte of a real buffer is `< 256`, and
  theorems that need that fact take it as a hypothesis.
* Rust `usize` is modelled as `Nat` (matching a 64-bit host, where `usize`
  is wider than 32 bits); explicit `as u32` casts in the source are
  modelled as `% 2^32`, and u32 wrapping subtraction `x - 1` as
  `(x + (2^32 - 1)) % 2^32`.
* Rust slicing `&d[start..end]` is modelled by `slice` below; the
  in-bounds callers get exactly the Rust window, and bound safety of the
  unchecked callers is proved separately.
* Fallible code returns `Except Error`; the state of a stream after an
  operation is returned alongside the result (explicit state passing).
-/

namespace Parser

/-- Modelled from the spec: the error taxonomy (`crate::Error`) is declared
outside the reviewed file; the only variant this file constructs is an
out-of-bounds read carrying the required end offset and the actual buffer
length (`Error::ReadOutOfBounds(range.end, self.data.len())`). -/
inductive Error where
  | ReadOutOfBounds (requiredEnd : Nat) (actualLength : Nat)
deriving DecidableEq, Repr

abbrev Result (α : Type) := Except Error α

/-- Rust `&d[start..stop]`, total: out-of-range slicing (which would be a
panic in Rust) yields a shorter list. -/
def slice (d : List Nat) (start stop : Nat) : List Nat :=
  (d.drop start).take (stop - start)

/-- The state of `SafeStream` (the trusted reader): a byte window and a
cursor offset. -/
structure SafeStream where
  data : List Nat
  offset : Nat
deriving DecidableEq, Repr

/-- The `FromData` trait as an explicit dictionary: a raw size and an
infallible parse function reading from the front of a byte window (every
`impl FromData` in the source reads `s.data[i]` on a freshly sliced
`SafeStream`, so `parse` takes the window itself). -/
structure FromData (α : Type) where
  rawSize : Nat
  parse : List Nat → α

/-- The `TryFromData` trait: a raw size and a fallible parse function. -/
structure TryFromData (α : Type) where
  rawSize : Nat
  try_parse : List Nat → Result α

/-- `impl FromData for u8`: `s.data[0]`. -/
def fromDataU8 : FromData Nat :=
  { rawSize := 1
    parse := fun d => d.getD 0 0 }

/-- `impl FromData for u16`: `(d[0] as u16) << 8 | d[1] as u16`. -/
def fromDataU16 : FromData Nat :=
  { rawSize := 2
    parse := fun d => (d.getD 0 0) <<< 8 ||| d.getD 1 0 }

/-- `impl FromData for u32`:
`(d[0] as u32) << 24 | (d[1] as u32) << 16 | (d[2] as u32) << 8 | d[3] as u32`. -/
def fromDataU32 : FromData Nat :=
  { rawSize := 4
    parse := fun d =>
      (d.getD 0 0) <<< 24 ||| (d.getD 1 0) <<< 16 ||| (d.getD 2 0) <<< 8 ||| d.getD 3 0 }

/-- `SafeStream::new`. -/
def SafeStream.new (data : List Nat) : SafeStream :=
  { data := data, offset := 0 }

/-- `SafeStream::skip::<T>`: `self.offset += T::raw_size()`. -/
def SafeStream.skip (fd : FromData α) (s : SafeStream) : SafeStream :=
  { s with offset := s.offset + fd.rawSize }

/-- `SafeStream::read::<T>`: slices `data[start..end]` at the cursor,
advances the cursor by `raw_size`, parses the window. -/
def SafeStream.read (fd : FromData α) (s : SafeStream) : α × SafeStream :=
  let start := s.offset
  let stop := start + fd.rawSize
  (fd.parse (slice s.data start stop), { s with offset := stop })

/-- `SafeStream::read_u24`: combines `d[0], d[1], d[2]` of the underlying
buffer big-endian (note: the source indexes the buffer from position 0,
not from the cursor) and advances the cursor by 3. -/
def SafeStream.read_u24 (s : SafeStream) : Nat × SafeStream :=
  let d := s.data
  let n := 0 <<< 24 ||| (d.getD 0 0) <<< 16 ||| (d.getD 1 0) <<< 8 ||| d.getD 2 0
  (n, { s with offset := s.offset + 3 })

/-- `pub struct Offset32(pub u32)`. -/
structure Offset32 where
  val : Nat
deriving DecidableEq, Repr

/-- `impl FromData for Offset32`: `Offset32(s.read())` (a u32 read at the
front of the window). -/
def fromDataOffset32 : FromData Offset32 :=
  { rawSize := 4
    parse := fun d => Offset32.mk (SafeStream.read fromDataU32 (SafeStream.new d)).1 }

/-- `impl FromData for Option<Offset32>`: reads an `Offset32`; zero means
absent. `raw_size` is overridden to `Offset32::raw_size()` (4). -/
def fromDataOptOffset32 : FromData (Option Offset32) :=
  { rawSize := fromDataOffset32.rawSize
    parse := fun d =>
      let offset := (SafeStream.read fromDataOffset32 (SafeStream.new d)).1
      if offset.val ≠ 0 then some offset else none }

/-- The state of `Stream` (the checked reader). -/
structure Stream where
  data : List Nat
  offset : Nat
deriving DecidableEq, Repr

/-- `Stream::new`. -/
def Stream.new (data : List Nat) : Stream :=
  { data := data, offset := 0 }

/-- `Stream::get_data`: `self.data.get(range)` succeeds exactly when
`start ≤ stop ∧ stop ≤ len`, otherwise
`Error::ReadOutOfBounds(range.end, self.data.len())`. -/
def Stream.get_data (s : Stream) (start stop : Nat) : Result (List Nat) :=
  if start ≤ stop ∧ stop ≤ s.data.length then
    .ok (slice s.data start stop)
  else
    .error (.ReadOutOfBounds stop s.data.length)

/-- `Stream::at_end`: `self.offset == self.data.len()`. -/
def Stream.at_end (s : Stream) : Bool :=
  s.offset == s.data.length

/-- `Stream::jump_to_end`. -/
def Stream.jump_to_end (s : Stream) : Stream :=
  { s with offset := s.data.length }

/-- `Stream::tail`: `self.get_data(self.offset..self.data.len())`. -/
def Stream.tail (s : Stream) : Result (List Nat) :=
  s.get_data s.offset s.data.length

/-- `Stream::skip::<T>`: `self.offset += T::raw_size()` (no bound check). -/
def Stream.skip (fd : FromData α) (s : Stream) : Stream :=
  { s with offset := s.offset + fd.rawSize }

/-- `Stream::skip_len`: `self.offset += len` (no bound check). -/
def Stream.skip_len (s : Stream) (len : Nat) : Stream :=
  { s with offset := s.offset + len }

/-- `Stream::read::<T>`: note the source advances `self.offset` before the
bound check, so the advanced cursor is kept even when `get_data` fails. -/
def Stream.read (fd : FromData α) (s : Stream) : Result α × Stream :=
  let start := s.offset
  let s' : Stream := { s with offset := s.offset + fd.rawSize }
  let stop := s'.offset
  match s'.get_data start stop with
  | .error e => (.error e, s')
  | .ok data => (.ok (fd.parse data), s')

/-- `Stream::try_read::<T>`: same cursor handling as `read`, then the
fallible parse. -/
def Stream.try_read (tfd : TryFromData α) (s : Stream) : Result α × Stream :=
  let start := s.offset
  let s' : Stream := { s with offset := s.offset + tfd.rawSize }
  let stop := s'.offset
  match s'.get_data start stop with
  | .error e => (.error e, s')
  | .ok data => (tfd.try_parse data, s')

/-- `Stream::read_bytes`: advances the cursor by `len`, then slices
`offset..offset+len` of the (unchanged) buffer. -/
def Stream.read_bytes (s : Stream) (len : Nat) : Result (List Nat) × Stream :=
  let offset := s.offset
  let s' : Stream := { s with offset := s.offset + len }
  (s'.get_data offset (offset + len), s')

/-- `LazyArray`: a byte view; the element dictionary is passed to each
operation (the Rust phantom type parameter). -/
structure LazyArray where
  data : List Nat
deriving DecidableEq, Repr

/-- `LazyArray::new`. -/
def LazyArray.new (data : List Nat) : LazyArray :=
  { data := data }

/-- `LazyArray::len`: `self.data.len() / T::raw_size()`. -/
def LazyArray.len (fd : FromData α) (a : LazyArray) : Nat :=
  a.data.length / fd.rawSize

/-- `LazyArray::is_empty`. -/
def LazyArray.is_empty (fd : FromData α) (a : LazyArray) : Bool :=
  a.len fd == 0

/-- `LazyArray::at`: unchecked element access; slices
`data[index*S .. index*S+S]` and parses it. -/
def LazyArray.at (fd : FromData α) (a : LazyArray) (index : Nat) : α :=
  let start := index * fd.rawSize
  let stop := start + fd.rawSize
  fd.parse (slice a.data start stop)

/-- `LazyArray::get`: bound-checked element access. -/
def LazyArray.get (fd : FromData α) (a : LazyArray) (index : Nat) : Option α :=
  if index < a.len fd then
    let start := index * fd.rawSize
    let stop := start + fd.rawSize
    some (fd.parse (slice a.data start stop))
  else
    none

/-- `LazyArray::last`: `self.get(self.len() as u32 - 1)` when non-empty.
The index is computed in u32 arithmetic: the length is truncated to 32
bits and the subtraction wraps (release-build semantics). -/
def LazyArray.last (fd : FromData α) (a : LazyArray) : Option α :=
  if ¬ (a.is_empty fd = true) then
    a.get fd ((a.len fd % 2 ^ 32 + (2 ^ 32 - 1)) % 2 ^ 32)
  else
    none

/-- `Stream::read_array::<T>`: `len * T::raw_size()` bytes are requested,
but the byte count is passed to `read_bytes` as a `u32` (`len as u32`),
hence truncated mod `2^32`. -/
def Stream.read_array (fd : FromData α) (s : Stream) (count : Nat) :
    Result LazyArray × Stream :=
  let len := count * fd.rawSize
  match s.read_bytes (len % 2 ^ 32) with
  | (.error e, s') => (.error e, s')
  | (.ok data, s') => (.ok (LazyArray.new data), s')

/-- The `while size > 1` loop of `LazyArray::binary_search_by`, with `g`
the composition of the caller's ordering function and `self.at`:
`half = size / 2`, `mid = base + half` (u32 addition), keep `base` when
the probe compares `Greater`, else move it to `mid`; `size -= half`. -/
def binarySearchLoop (g : Nat → Ordering) (base size : Nat) : Nat :=
  if 1 < size then
    let half := size / 2
    let mid := (base + half) % 2 ^ 32
    let base' := if g mid = .gt then base else mid
    binarySearchLoop g base' (size - half)
  else
    base
termination_by size
decreasing_by
  simp_wf
  omega

/-- `LazyArray::binary_search_by`: `size` starts as `self.len() as u32`
(truncated); empty means absent; after the loop the final candidate is
checked for `Equal`. -/
def LazyArray.binary_search_by (fd : FromData α) (a : LazyArray)
    (f : α → Ordering) : Option α :=
  let size := a.len fd % 2 ^ 32
  if size = 0 then
    none
  else
    let base := binarySearchLoop (fun mid => f (a.at fd mid)) 0 size
    let value := a.at fd base
    if f value = .eq then some value else none

/-- The indices `binary_search_by` passes to the unchecked accessor `at`,
in order: every probed midpoint of the loop, then the final candidate
`base`. Mirrors `binarySearchLoop` exactly. -/
def binarySearchLoopProbes (g : Nat → Ordering) (base size : Nat) : List Nat :=
  if 1 < size then
    let half := size / 2
    let mid := (base + half) % 2 ^ 32
    let base' := if g mid = .gt then base else mid
    mid :: binarySearchLoopProbes g base' (size - half)
  else
    [base]
termination_by size
decreasing_by
  simp_wf
  omega

/-- All indices `binary_search_by` passes to `at`: none when the truncated
size is zero (absent is returned without probing). -/
def LazyArray.binary_search_probes (fd : FromData α) (a : LazyArray)
    (f : α → Ordering) : List Nat :=
  let size := a.len fd % 2 ^ 32
  if size = 0 then
    []
  else
    binarySearchLoopProbes (fun mid => f (a.at fd mid)) 0 size

/-- Rank of an `Ordering`, to state "non-decreasing under the ordering
function": `lt < eq < gt`. -/
def ordRank : Ordering → Nat
  | .lt => 0
  | .eq => 1
  | .gt => 2


/-! Helper lemmas about the checked reader. -/

theorem Stream.read_eq (fd : FromData α) (s : Stream) :
    Stream.read fd s =
      (if s.offset + fd.rawSize ≤ s.data.length then
         .ok (fd.parse (slice s.data s.offset (s.offset + fd.rawSize)))
       else
         .error (.ReadOutOfBounds (s.offset + fd.rawSize) s.data.length),
       { s with offset := s.offset + fd.rawSize }) := by
  unfold Stream.read Stream.get_data
  by_cases h : s.offset + fd.rawSize ≤ s.data.length
  · simp [h]
  · simp [h]

theorem Stream.try_read_eq (tfd : TryFromData α) (s : Stream) :
    Stream.try_read tfd s =
      (if s.offset + tfd.rawSize ≤ s.data.length then
         tfd.try_parse (slice s.data s.offset (s.offset + tfd.rawSize))
       else
         .error (.ReadOutOfBounds (s.offset + tfd.rawSize) s.data.length),
       { s with offset := s.offset + tfd.rawSize }) := by
  unfold Stream.try_read Stream.get_data
  by_cases h : s.offset + tfd.rawSize ≤ s.data.length
  · simp [h]
  · simp [h]

theorem Stream.read_bytes_eq (s : Stream) (n : Nat) :
    Stream.read_bytes s n =
      (if s.offset + n ≤ s.data.length then
         .ok (slice s.data s.offset (s.offset + n))
       else
         .error (.ReadOutOfBounds (s.offset + n) s.data.length),
       { s with offset := s.offset + n }) := by
  unfold Stream.read_bytes Stream.get_data
  by_cases h : s.offset + n ≤ s.data.length
  · simp [h]
  · simp [h]

theorem Stream.read_array_eq (fd : FromData α) (s : Stream) (count : Nat) :
    Stream.read_array fd s count =
      (if s.offset + count * fd.rawSize % 2 ^ 32 ≤ s.data.length then
         .ok (LazyArray.new (slice s.data s.offset (s.offset + count * fd.rawSize % 2 ^ 32)))
       else
         .error (.ReadOutOfBounds (s.offset + count * fd.rawSize % 2 ^ 32) s.data.length),
       { s with offset := s.offset + count * fd.rawSize % 2 ^ 32 }) := by
  unfold Stream.read_array
  dsimp only
  rw [Stream.read_bytes_eq]
  split
  all_goals rename_i heq
  all_goals split at heq <;> simp_all
  rw [if_neg (by omega)]

theorem binarySearchLoop_bounds (g : Nat → Ordering) (size : Nat) :
    ∀ base, 1 ≤ size → base + size ≤ 2 ^ 32 →
      base ≤ binarySearchLoop g base size ∧ binarySearchLoop g base size < base + size := by
  induction size using Nat.strong_induction_on with
  | _ size ih =>
    intro base h1 h2
    rw [binarySearchLoop]
    by_cases hs : 1 < size
    · rw [if_pos hs]
      have hhalf1 : 1 ≤ size / 2 := by omega
      have hhalf2 : size / 2 < size := by omega
      have hmod : (base + size / 2) % 2 ^ 32 = base + size / 2 :=
        Nat.mod_eq_of_lt (by omega)
      dsimp only
      rw [hmod]
      by_cases hg : g (base + size / 2) = Ordering.gt
      · rw [if_pos hg]
        have := ih (size - size / 2) (by omega) base (by omega) (by omega)
        omega
      · rw [if_neg hg]
        have := ih (size - size / 2) (by omega) (base + size / 2) (by omega) (by omega)
        omega
    · rw [if_neg hs]
      omega

theorem binarySearchLoopProbes_bounds (g : Nat → Ordering) (size : Nat) :
    ∀ base, 1 ≤ size → base + size ≤ 2 ^ 32 →
      ∀ i ∈ binarySearchLoopProbes g base size, i < base + size := by
  induction size using Nat.strong_induction_on with
  | _ size ih =>
    intro base h1 h2
    rw [binarySearchLoopProbes]
    by_cases hs : 1 < size
    · rw [if_pos hs]
      have hhalf2 : size / 2 < size := by omega
      have hmod : (base + size / 2) % 2 ^ 32 = base + size / 2 :=
        Nat.mod_eq_of_lt (by omega)
      dsimp only
      rw [hmod]
      intro i hi
      rcases List.mem_cons.1 hi with h | h
      · omega
      · by_cases hg : g (base + size / 2) = Ordering.gt
        · rw [if_pos hg] at h
          have := ih (size - size / 2) (by omega) base (by omega) (by omega) i h
          omega
        · rw [if_neg hg] at h
          have := ih (size - size / 2) (by omega) (base + size / 2) (by omega) (by omega) i h
          omega
    · rw [if_neg hs]
      intro i hi
      rcases List.mem_cons.1 hi with h | h
      · omega
      · simp at h
    
theorem binarySearchLoop_finds (g : Nat → Ordering) (N : Nat) (hN : N ≤ 2 ^ 32)
    (hmono : ∀ j, j < N → ∀ i, i ≤ j → ordRank (g i) ≤ ordRank (g j))
    (k : Nat) (hk : k < N) (hkeq : g k = Ordering.eq)
    (huniq : ∀ j, j < N → g j = Ordering.eq → j = k) (size : Nat) :
    ∀ base, 1 ≤ size → base + size ≤ N → base ≤ k → k < base + size →
      binarySearchLoop g base size = k := by
  induction size using Nat.strong_induction_on with
  | _ size ih =>
    intro base h1 h2 hbk hkb
    rw [binarySearchLoop]
    by_cases hs : 1 < size
    · rw [if_pos hs]
      have hhalf1 : 1 ≤ size / 2 := by omega
      have hhalf2 : size / 2 < size := by omega
      have hmod : (base + size / 2) % 2 ^ 32 = base + size / 2 :=
        Nat.mod_eq_of_lt (by omega)
      dsimp only
      rw [hmod]
      by_cases hg : g (base + size / 2) = Ordering.gt
      · rw [if_pos hg]
        have hkmid : k < base + size / 2 := by
          by_contra hle
          have := hmono k hk (base + size / 2) (by omega)
          rw [hg, hkeq] at this
          simp [ordRank] at this
        exact ih (size - size / 2) (by omega) base (by omega) (by omega) hbk (by omega)
      · rw [if_neg hg]
        have hmidk : base + size / 2 ≤ k := by
          rcases hgv : g (base + size / 2) with _ | _ | _
          · by_contra hlt
            have := hmono (base + size / 2) (by omega) k (by omega)
            rw [hgv, hkeq] at this
            simp [ordRank] at this
          · have := huniq (base + size / 2) (by omega) hgv
            omega
          · exact absurd hgv hg
        exact ih (size - size / 2) (by omega) (base + size / 2) (by omega) (by omega)
          hmidk (by omega)
    · rw [if_neg hs]
      omega

theorem getD_slice (d : List Nat) (s e i : Nat) (h : s + i < e) :
    (slice d s e).getD i 0 = d.getD (s + i) 0 := by
  unfold slice
  rw [List.getD_eq_getElem?_getD, List.getD_eq_getElem?_getD,
    List.getElem?_take, if_pos (by omega), List.getElem?_drop]

theorem slice_zero_length (d : List Nat) (n : Nat) (h : d.length ≤ n) :
    slice d 0 n = d := by
  unfold slice
  rw [List.drop_zero, Nat.sub_zero, List.take_of_length_le h]

/-- A sample fallible decoding dictionary, used to instantiate theorems
that are generic over `TryFromData`. -/
def tryFromDataU16 : TryFromData Nat :=
  { rawSize := 2
    try_parse := fun d => .ok (fromDataU16.parse d) }

/-- Claim C1 is refuted at a concrete input: `read::<u16>()` on an empty
checked reader (cursor 0) fails with a bound failure, yet the cursor after
the failure is 2, not 0. -/
theorem c1_counterexample :
    (Stream.read fromDataU16 (Stream.new [])).1 =
      .error (.ReadOutOfBounds 2 0) ∧
    (Stream.new []).offset = 0 ∧
    (Stream.read fromDataU16 (Stream.new [])).2.offset = 2 :=
  ⟨rfl, rfl, rfl⟩

/-- Claim C1 (amended): every checked-reader operation (`read`, `try_read`,
`read_bytes`, `read_array`) advances the cursor by the requested byte
length whether it succeeds or fails; hence post-cursor ≥ pre-cursor for
every operation, but a failed operation leaves the cursor at
pre-cursor + requested length, not at the pre-cursor. -/
theorem c1_cursor_always_advances (fd : FromData α) (tfd : TryFromData β)
    (s : Stream) (n count : Nat) :
    (Stream.read fd s).2.offset = s.offset + fd.rawSize ∧
    (Stream.try_read tfd s).2.offset = s.offset + tfd.rawSize ∧
    (Stream.read_bytes s n).2.offset = s.offset + n ∧
    (Stream.read_array fd s count).2.offset
      = s.offset + count * fd.rawSize % 2 ^ 32 ∧
    s.offset ≤ (Stream.read fd s).2.offset := by
  rw [Stream.read_eq, Stream.try_read_eq, Stream.read_bytes_eq, Stream.read_array_eq]
  exact ⟨rfl, rfl, rfl, rfl, Nat.le_add_right s.offset fd.rawSize⟩

/-- Claim C2 is refuted at a concrete input: `skip::<u32>()` on an empty
checked reader moves the cursor to 4 while the buffer length is 0, and a
failed `read::<u32>()` on a 2-byte reader moves the cursor to 4 > 2: the
invariant cursor ≤ buffer-length is not maintained. -/
theorem c2_counterexample :
    (Stream.skip fromDataU32 (Stream.new [])).offset = 4 ∧
    (Stream.skip fromDataU32 (Stream.new [])).data.length = 0 ∧
    (Stream.read fromDataU32 (Stream.new [0, 0])).2.offset = 4 ∧
    (Stream.read fromDataU32 (Stream.new [0, 0])).2.data.length = 2 := by
  decide

/-- Claim C2 (amended): the cursor is a natural number (never negative),
but cursor ≤ buffer-length is not an invariant: `skip`, `skip_len` and
failed reads may move the cursor past the buffer length. What does hold:
a read whose required range exceeds the bound fails (it yields no data,
though it still advances the cursor), and every successful `read`,
`try_read`, `read_bytes` or `read_array` leaves the cursor ≤ buffer
length. -/
theorem c2_successful_reads_bounded (fd : FromData α) (tfd : TryFromData β)
    (s : Stream) (n count : Nat) :
    (∀ v, (Stream.read fd s).1 = .ok v → (Stream.read fd s).2.offset ≤ s.data.length) ∧
    (∀ v, (Stream.try_read tfd s).1 = .ok v →
      (Stream.try_read tfd s).2.offset ≤ s.data.length) ∧
    (∀ b, (Stream.read_bytes s n).1 = .ok b →
      (Stream.read_bytes s n).2.offset ≤ s.data.length) ∧
    (∀ a, (Stream.read_array fd s count).1 = .ok a →
      (Stream.read_array fd s count).2.offset ≤ s.data.length) ∧
    (s.data.length < s.offset + fd.rawSize → ∀ v, (Stream.read fd s).1 ≠ .ok v) := by
  rw [Stream.read_eq, Stream.try_read_eq, Stream.read_bytes_eq, Stream.read_array_eq]
  refine ⟨?_, ?_, ?_, ?_, ?_⟩
  · intro v hv
    by_cases h : s.offset + fd.rawSize ≤ s.data.length
    · exact h
    · rw [if_neg h] at hv
      exact absurd hv (by simp)
  · intro v hv
    by_cases h : s.offset + tfd.rawSize ≤ s.data.length
    · exact h
    · rw [if_neg h] at hv
      exact absurd hv (by simp)
  · intro b hb
    by_cases h : s.offset + n ≤ s.data.length
    · exact h
    · rw [if_neg h] at hb
      exact absurd hb (by simp)
  · intro a ha
    by_cases h : s.offset + count * fd.rawSize % 2 ^ 32 ≤ s.data.length
    · exact h
    · rw [if_neg h] at ha
      exact absurd ha (by simp)
  · intro h v
    rw [if_neg (by omega)]
    simp

/-- Claim C2 witness: `read::<u8>()` on a 1-byte reader succeeds with
value 5 and leaves the cursor at 1 ≤ 1. -/
theorem c2_witness :
    (Stream.read fromDataU8 (Stream.new [5])).1 = .ok 5 ∧
    (Stream.read fromDataU8 (Stream.new [5])).2.offset ≤ (Stream.new [5]).data.length :=
  ⟨rfl,
   (c2_successful_reads_bounded fromDataU8 tryFromDataU16 (Stream.new [5]) 0 0).1 5 rfl⟩

/-- Claim C3: every bound failure of `read` carries exactly the pair
(required end offset = cursor + raw size, actual buffer length); in the
concrete scenario, `read::<u32>()` with exactly 2 bytes remaining fails
with `ReadOutOfBounds (cursor + 4) (original buffer length)`; and a
successful `read` only ever needs bytes at indices < buffer length. -/
theorem c3_bound_failure_payload (fd : FromData α) (s : Stream)
    (h2 : s.data.length = s.offset + 2) :
    (Stream.read fromDataU32 s).1
      = .error (.ReadOutOfBounds (s.offset + 4) s.data.length) ∧
    (∀ t : Stream, t.data.length < t.offset + fd.rawSize →
      (Stream.read fd t).1
        = .error (.ReadOutOfBounds (t.offset + fd.rawSize) t.data.length)) ∧
    (∀ (t : Stream) (v : α), (Stream.read fd t).1 = .ok v →
      t.offset + fd.rawSize ≤ t.data.length) := by
  refine ⟨?_, ?_, ?_⟩
  · rw [Stream.read_eq]
    have : fromDataU32.rawSize = 4 := rfl
    rw [this, if_neg (by omega)]
  · intro t ht
    rw [Stream.read_eq, if_neg (by omega)]
  · intro t v hv
    rw [Stream.read_eq] at hv
    by_cases h : t.offset + fd.rawSize ≤ t.data.length
    · exact h
    · rw [if_neg h] at hv
      exact absurd hv (by simp)

/-- Claim C3 witness: `read::<u32>()` on the 2-byte buffer `[9, 9]` at
cursor 0 fails with `ReadOutOfBounds 4 2`. -/
theorem c3_witness :
    (Stream.new [9, 9]).data.length = (Stream.new [9, 9]).offset + 2 ∧
    (Stream.read fromDataU32 (Stream.new [9, 9])).1 = .error (.ReadOutOfBounds 4 2) :=
  ⟨by decide, (c3_bound_failure_payload fromDataU8 (Stream.new [9, 9]) (by decide)).1⟩

/-- Claim C4 (amended): for a lazy array of fewer than 2^32 elements that
is non-decreasing under the ordering function, `binary_search_by` returns
the unique element comparing Equal when the target is present exactly
once, and returns none when no element compares Equal. -/
theorem c4_binary_search_correct (fd : FromData α) (a : LazyArray)
    (f : α → Ordering) (hlen : a.len fd < 2 ^ 32)
    (hmono : ∀ j, j < a.len fd → ∀ i, i ≤ j →
      ordRank (f (a.at fd i)) ≤ ordRank (f (a.at fd j))) :
    (∀ k, k < a.len fd → f (a.at fd k) = .eq →
      (∀ j, j < a.len fd → f (a.at fd j) = .eq → j = k) →
      a.binary_search_by fd f = some (a.at fd k)) ∧
    ((∀ j, j < a.len fd → f (a.at fd j) ≠ .eq) →
      a.binary_search_by fd f = none) := by
  unfold LazyArray.binary_search_by
  have hmod : a.len fd % 2 ^ 32 = a.len fd := Nat.mod_eq_of_lt hlen
  rw [hmod]
  constructor
  · intro k hk hkeq huniq
    rw [if_neg (by omega)]
    dsimp only
    have hbase : binarySearchLoop (fun mid => f (a.at fd mid)) 0 (a.len fd) = k :=
      binarySearchLoop_finds (fun mid => f (a.at fd mid)) (a.len fd) (by omega)
        hmono k hk hkeq huniq (a.len fd) 0 (by omega) (by omega) (by omega) (by omega)
    rw [hbase, if_pos hkeq]
  · intro hnone
    by_cases h0 : a.len fd = 0
    · rw [if_pos h0]
    · rw [if_neg h0]
      dsimp only
      have hbase := binarySearchLoop_bounds (fun mid => f (a.at fd mid)) (a.len fd)
        0 (by omega) (by omega)
      rw [if_neg (hnone _ (by omega))]

/-- Claim C4 witness: the sorted 3-element u8 array `[1, 2, 3]` searched
with `compare x 2` finds the unique matching element 2; searched with
`compare x 9` (absent) it returns none. -/
theorem c4_witness :
    LazyArray.binary_search_by fromDataU8 (LazyArray.new [1, 2, 3])
      (fun x => compare x 2) = some (LazyArray.at fromDataU8 (LazyArray.new [1, 2, 3]) 1) ∧
    LazyArray.binary_search_by fromDataU8 (LazyArray.new [1, 2, 3])
      (fun x => compare x 9) = none :=
  ⟨(c4_binary_search_correct fromDataU8 (LazyArray.new [1, 2, 3])
      (fun x => compare x 2) (by decide) (by decide)).1 1 (by decide) (by decide)
      (by decide),
   (c4_binary_search_correct fromDataU8 (LazyArray.new [1, 2, 3])
      (fun x => compare x 9) (by decide) (by decide)).2 (by decide)⟩

theorem at_u8 (a : LazyArray) (i : Nat) :
    LazyArray.at fromDataU8 a i = a.data.getD i 0 := by
  unfold LazyArray.at
  dsimp only
  show (slice a.data (i * 1) (i * 1 + 1)).getD 0 0 = a.data.getD i 0
  rw [getD_slice _ _ _ _ (by omega)]
  norm_num

theorem len_u8 (a : LazyArray) : LazyArray.len fromDataU8 a = a.data.length :=
  Nat.div_one _

def c4Array : LazyArray := LazyArray.new (1 :: List.replicate (2 ^ 32 - 1) 2)

theorem c4Array_data : c4Array.data = 1 :: List.replicate (2 ^ 32 - 1) 2 := rfl

theorem c4Array_len : LazyArray.len fromDataU8 c4Array = 2 ^ 32 := by
  rw [len_u8, c4Array_data, List.length_cons, List.length_replicate]
  omega

theorem c4Array_at_zero : LazyArray.at fromDataU8 c4Array 0 = 1 := by
  rw [at_u8, c4Array_data]
  rfl

theorem c4Array_at_pos (i : Nat) (h1 : 1 ≤ i) (h2 : i < 2 ^ 32) :
    LazyArray.at fromDataU8 c4Array i = 2 := by
  rw [at_u8, c4Array_data]
  obtain ⟨j, rfl⟩ : ∃ j, i = j + 1 := ⟨i - 1, by omega⟩
  rw [List.getD_eq_getElem?_getD, List.getElem?_cons_succ, List.getElem?_replicate,
    if_pos (by omega)]
  rfl

/-- Claim C4 is refuted at a concrete input: a 2^32-element u8 array (the
byte 1 followed by 2^32 - 1 copies of the byte 2) is non-decreasing under
`compare x 1` and the target 1 is present exactly once (at index 0), yet
`binary_search_by` returns none: `self.len() as u32` truncates the
element count to 0 before the search. -/
theorem c4_counterexample :
    (∀ j, j < LazyArray.len fromDataU8 c4Array → ∀ i, i ≤ j →
      ordRank (compare (LazyArray.at fromDataU8 c4Array i) 1)
        ≤ ordRank (compare (LazyArray.at fromDataU8 c4Array j) 1)) ∧
    0 < LazyArray.len fromDataU8 c4Array ∧
    compare (LazyArray.at fromDataU8 c4Array 0) 1 = .eq ∧
    (∀ j, j < LazyArray.len fromDataU8 c4Array →
      compare (LazyArray.at fromDataU8 c4Array j) 1 = .eq → j = 0) ∧
    LazyArray.binary_search_by fromDataU8 c4Array (fun x => compare x 1) = none := by
  have hat : ∀ i, i < 2 ^ 32 →
      compare (LazyArray.at fromDataU8 c4Array i) 1
        = if i = 0 then Ordering.eq else Ordering.gt := by
    intro i hi
    by_cases h0 : i = 0
    · rw [if_pos h0, h0, c4Array_at_zero]
      rfl
    · rw [if_neg h0, c4Array_at_pos i (by omega) hi]
      rfl
  rw [c4Array_len]
  refine ⟨?_, by omega, ?_, ?_, ?_⟩
  · intro j hj i hij
    rw [hat i (by omega), hat j (by omega)]
    by_cases hi0 : i = 0 <;> by_cases hj0 : j = 0
    · simp [hi0, hj0, ordRank]
    · simp [hi0, hj0, ordRank]
    · simp [hi0, hj0, ordRank]
      omega
    · simp [hi0, hj0, ordRank]
  · rw [c4Array_at_zero]
    rfl
  · intro j hj hjeq
    by_contra h0
    rw [hat j (by omega), if_neg h0] at hjeq
    exact absurd hjeq (by decide)
  · unfold LazyArray.binary_search_by
    dsimp only
    rw [c4Array_len, Nat.mod_self]
    simp

theorem get_eq_at (fd : FromData α) (a : LazyArray) (i : Nat) (h : i < a.len fd) :
    a.get fd i = some (a.at fd i) := by
  unfold LazyArray.get LazyArray.at
  rw [if_pos h]

/-- Claim C5 (amended): `len() = N / S` and `get(len())` absent hold for
every lazy array; `last() = get(len() - 1)` holds for non-empty arrays of
fewer than 2^32 elements (the index `len() as u32 - 1` is computed in
truncated 32-bit arithmetic), and `last()` is absent when empty. -/
theorem c5_lazy_array_laws (fd : FromData α) (a : LazyArray) :
    a.len fd = a.data.length / fd.rawSize ∧
    a.get fd (a.len fd) = none ∧
    (a.len fd = 0 → a.last fd = none) ∧
    (0 < a.len fd → a.len fd < 2 ^ 32 → a.last fd = a.get fd (a.len fd - 1)) := by
  refine ⟨rfl, ?_, ?_, ?_⟩
  · unfold LazyArray.get
    rw [if_neg (Nat.lt_irrefl _)]
  · intro h0
    unfold LazyArray.last
    rw [if_neg (by simp [LazyArray.is_empty, h0])]
  · intro h1 h2
    unfold LazyArray.last
    rw [if_pos (by simp [LazyArray.is_empty]; omega)]
    have hidx : (a.len fd % 2 ^ 32 + (2 ^ 32 - 1)) % 2 ^ 32 = a.len fd - 1 := by
      rw [Nat.mod_eq_of_lt h2]
      rw [show a.len fd + (2 ^ 32 - 1) = a.len fd - 1 + 2 ^ 32 by omega,
        Nat.add_mod_right, Nat.mod_eq_of_lt (by omega)]
    rw [hidx]

/-- Claim C5 witness: the 2-byte u8 array `[3, 9]` has `len = 2 = 2 / 1`,
`get 2 = none`, and `last = get 1`. -/
theorem c5_witness :
    LazyArray.len fromDataU8 (LazyArray.new [3, 9]) = 2 ∧
    LazyArray.get fromDataU8 (LazyArray.new [3, 9]) 2 = none ∧
    LazyArray.last fromDataU8 (LazyArray.new [3, 9])
      = LazyArray.get fromDataU8 (LazyArray.new [3, 9]) 1 :=
  ⟨rfl,
   (c5_lazy_array_laws fromDataU8 (LazyArray.new [3, 9])).2.1,
   (c5_lazy_array_laws fromDataU8 (LazyArray.new [3, 9])).2.2.2 (by decide) (by decide)⟩

def c5Array : LazyArray := LazyArray.new (List.replicate (2 ^ 32 + 4) 0 ++ [7])

theorem c5Array_data : c5Array.data = List.replicate (2 ^ 32 + 4) 0 ++ [7] := rfl

theorem c5Array_len : LazyArray.len fromDataU8 c5Array = 2 ^ 32 + 5 := by
  rw [len_u8, c5Array_data, List.length_append, List.length_replicate,
    List.length_singleton]

theorem c5Array_getD_4 : c5Array.data.getD 4 0 = 0 := by
  rw [c5Array_data, List.getD_eq_getElem?_getD,
    List.getElem?_append_left (by rw [List.length_replicate]; omega),
    List.getElem?_replicate, if_pos (by omega)]
  rfl

theorem c5Array_getD_top : c5Array.data.getD (2 ^ 32 + 4) 0 = 7 := by
  rw [c5Array_data, List.getD_eq_getElem?_getD,
    List.getElem?_append_right (by rw [List.length_replicate]),
    List.length_replicate, Nat.sub_self]
  rfl

/-- Claim C5 is refuted at a concrete input: the u8 array over
2^32 + 4 zero bytes followed by the byte 7 is non-empty, but `last()`
returns the element at index 4 (value 0), not `get(len() - 1)` (the
element at index 2^32 + 4, value 7): the index `self.len() as u32 - 1` is
truncated to 32 bits. -/
theorem c5_counterexample :
    0 < LazyArray.len fromDataU8 c5Array ∧
    LazyArray.last fromDataU8 c5Array = some 0 ∧
    LazyArray.get fromDataU8 c5Array (LazyArray.len fromDataU8 c5Array - 1) = some 7 ∧
    LazyArray.last fromDataU8 c5Array
      ≠ LazyArray.get fromDataU8 c5Array (LazyArray.len fromDataU8 c5Array - 1) := by
  have hlen := c5Array_len
  have hlast : LazyArray.last fromDataU8 c5Array = some 0 := by
    unfold LazyArray.last
    rw [if_pos (by simp [LazyArray.is_empty]; omega)]
    have hidx : (LazyArray.len fromDataU8 c5Array % 2 ^ 32 + (2 ^ 32 - 1)) % 2 ^ 32 = 4 := by
      rw [hlen]
      decide
    rw [hidx, get_eq_at _ _ _ (by omega), at_u8, c5Array_getD_4]
  have hget : LazyArray.get fromDataU8 c5Array (LazyArray.len fromDataU8 c5Array - 1)
      = some 7 := by
    rw [hlen, show 2 ^ 32 + 5 - 1 = 2 ^ 32 + 4 by decide,
      get_eq_at _ _ _ (by omega), at_u8, c5Array_getD_top]
  refine ⟨by omega, hlast, hget, ?_⟩
  rw [hlast, hget]
  simp

theorem optOffset32_parse (d : List Nat) (hd4 : d.length = 4) :
    fromDataOptOffset32.parse d
      = if fromDataU32.parse d ≠ 0
        then some (Offset32.mk (fromDataU32.parse d)) else none := by
  have hs : slice d 0 (0 + 4) = d := by
    rw [Nat.zero_add]
    exact slice_zero_length d 4 (by omega)
  simp only [fromDataOptOffset32, fromDataOffset32, SafeStream.read, SafeStream.new,
    show fromDataU32.rawSize = 4 from rfl, hs]

/-- Claim C6: decoding `00 00 00 00` as an optional offset yields absent
and advances the cursor by exactly 4; `00 00 00 05` yields a present
offset wrapping 5 and advances by 4; in general the optional-offset
decode consumes 4 bytes and carries every non-zero value through
unchanged. -/
theorem c6_optional_offset (s : Stream) (d : List Nat) (hd4 : d.length = 4)
    (hnz : fromDataU32.parse d ≠ 0) :
    (Stream.read fromDataOptOffset32 (Stream.new [0, 0, 0, 0])).1 = .ok none ∧
    (Stream.read fromDataOptOffset32 (Stream.new [0, 0, 0, 0])).2.offset = 4 ∧
    (Stream.read fromDataOptOffset32 (Stream.new [0, 0, 0, 5])).1
      = .ok (some (Offset32.mk 5)) ∧
    (Stream.read fromDataOptOffset32 (Stream.new [0, 0, 0, 5])).2.offset = 4 ∧
    (Stream.read fromDataOptOffset32 s).2.offset = s.offset + 4 ∧
    fromDataOptOffset32.parse d = some (Offset32.mk (fromDataU32.parse d)) := by
  refine ⟨rfl, rfl, rfl, rfl, ?_, ?_⟩
  · rw [Stream.read_eq]
    rfl
  · rw [optOffset32_parse d hd4, if_pos hnz]

/-- Claim C6 witness: instantiated at the window `[0, 0, 0, 5]` and a
reader over `[1, 2, 3]`. -/
theorem c6_witness :
    ([0, 0, 0, 5] : List Nat).length = 4 ∧
    fromDataU32.parse [0, 0, 0, 5] ≠ 0 ∧
    (Stream.read fromDataOptOffset32 (Stream.new [1, 2, 3])).2.offset
      = (Stream.new [1, 2, 3]).offset + 4 ∧
    fromDataOptOffset32.parse [0, 0, 0, 5] = some (Offset32.mk 5) := by
  refine ⟨by decide, by decide,
    (c6_optional_offset (Stream.new [1, 2, 3]) [0, 0, 0, 5] (by decide) (by decide)).2.2.2.2.1,
    ?_⟩
  have h := (c6_optional_offset (Stream.new [1, 2, 3]) [0, 0, 0, 5]
    (by decide) (by decide)).2.2.2.2.2
  rw [h]
  rfl

/-- Claim C7: the buffer `[0x00, 0x2A, 0x01, 0x00]` read as two
consecutive u16 values yields 42 then 256, the cursor ends at 4 and
`at_end()` is true; in general a u16 read combines two bytes big-endian
and advances the cursor by exactly its raw size (2). -/
theorem c7_u16_big_endian (s : Stream) (h : s.offset + 2 ≤ s.data.length) :
    (Stream.read fromDataU16 (Stream.new [0x00, 0x2A, 0x01, 0x00])).1 = .ok 42 ∧
    (Stream.read fromDataU16
      (Stream.read fromDataU16 (Stream.new [0x00, 0x2A, 0x01, 0x00])).2).1 = .ok 256 ∧
    (Stream.read fromDataU16
      (Stream.read fromDataU16 (Stream.new [0x00, 0x2A, 0x01, 0x00])).2).2.offset = 4 ∧
    Stream.at_end (Stream.read fromDataU16
      (Stream.read fromDataU16 (Stream.new [0x00, 0x2A, 0x01, 0x00])).2).2 = true ∧
    (Stream.read fromDataU16 s).2.offset = s.offset + 2 ∧
    (Stream.read fromDataU16 s).1
      = .ok (s.data.getD s.offset 0 <<< 8 ||| s.data.getD (s.offset + 1) 0) := by
  refine ⟨rfl, rfl, rfl, rfl, ?_, ?_⟩
  · rw [Stream.read_eq]
    rfl
  · rw [Stream.read_eq, show fromDataU16.rawSize = 2 from rfl, if_pos h]
    show Except.ok ((slice s.data s.offset (s.offset + 2)).getD 0 0 <<< 8
      ||| (slice s.data s.offset (s.offset + 2)).getD 1 0) = _
    rw [getD_slice _ _ _ _ (by omega), getD_slice _ _ _ _ (by omega)]
    norm_num

/-- Claim C7 witness: a u16 read on the 2-byte buffer `[7, 8]` at cursor 0
advances the cursor to 2 and combines the bytes big-endian. -/
theorem c7_witness :
    (Stream.new [7, 8]).offset + 2 ≤ (Stream.new [7, 8]).data.length ∧
    (Stream.read fromDataU16 (Stream.new [7, 8])).2.offset
      = (Stream.new [7, 8]).offset + 2 :=
  ⟨by decide, (c7_u16_big_endian (Stream.new [7, 8]) (by decide)).2.2.2.2.1⟩

/-- Claim C8 is contradicted by the code: `read_u24` reads the 3 bytes at
buffer positions 0..2 no matter where the cursor is, while still
advancing the cursor by 3. On the window `[1, 2, 3, 4, 5, 6]` with the
cursor at 3, it returns 66051 (`0x010203`, the first three bytes), not
263430 (`0x040506`, the three bytes at the cursor). -/
theorem c8_read_u24_ignores_cursor :
    (SafeStream.read_u24 (SafeStream.mk [1, 2, 3, 4, 5, 6] 3)).1 = 66051 ∧
    (SafeStream.read_u24 (SafeStream.mk [1, 2, 3, 4, 5, 6] 3)).2.offset = 6 ∧
    66051 ≠ (4 : Nat) <<< 16 ||| (5 : Nat) <<< 8 ||| (6 : Nat) ∧
    (∀ t : SafeStream, (SafeStream.read_u24 t).2.offset = t.offset + 3) :=
  ⟨by decide, by decide, by decide, fun t => rfl⟩

/-- Claim C9: `read_array::<T>(count)` validates and slices
`count * raw_size::<T>() mod 2^32` bytes (the byte length is cast to u32
before the bound check); concretely, 2^32 u8 elements requested from an
empty reader succeed with a 0-element array, and 2^31 + 1 u16 elements
requested from a 2-byte reader succeed with a 1-element array. -/
theorem c9_read_array_truncates (α : Type) :
    (∀ (fd : FromData α) (s : Stream) (count : Nat),
      (Stream.read_array fd s count).2.offset
        = s.offset + count * fd.rawSize % 2 ^ 32) ∧
    (Stream.read_array fromDataU8 (Stream.new []) (2 ^ 32)).1
      = .ok (LazyArray.new []) ∧
    LazyArray.len fromDataU8 (LazyArray.new []) = 0 ∧
    (0 : Nat) < 2 ^ 32 ∧
    (Stream.read_array fromDataU16 (Stream.new [9, 9]) (2 ^ 31 + 1)).1
      = .ok (LazyArray.new [9, 9]) ∧
    LazyArray.len fromDataU16 (LazyArray.new [9, 9]) = 1 ∧
    (1 : Nat) < 2 ^ 31 + 1 := by
  refine ⟨?_, rfl, rfl, by norm_num, rfl, rfl, by norm_num⟩
  intro fd s count
  rw [Stream.read_array_eq]

/-- Claim C10: every index `binary_search_by` passes to the unchecked
accessor `at` is strictly below `len()`, so the unchecked slicing inside
`at` stays in bounds (the size-zero case probes nothing). -/
theorem c10_probe_indices_in_bounds (fd : FromData α) (a : LazyArray)
    (f : α → Ordering) :
    ∀ i ∈ a.binary_search_probes fd f, i < a.len fd := by
  unfold LazyArray.binary_search_probes
  dsimp only
  by_cases h0 : a.len fd % 2 ^ 32 = 0
  · rw [if_pos h0]
    intro i hi
    simp at hi
  · rw [if_neg h0]
    intro i hi
    have hb := binarySearchLoopProbes_bounds (fun mid => f (a.at fd mid))
      (a.len fd % 2 ^ 32) 0 (by omega) (by omega) i hi
    have hle : a.len fd % 2 ^ 32 ≤ a.len fd := Nat.mod_le _ _
    omega

/-- Claim C10 witness: searching the singleton u8 array `[5]` probes
index 0, which is below the length 1. -/
theorem c10_witness :
    (0 ∈ LazyArray.binary_search_probes fromDataU8 (LazyArray.new [5])
      (fun x => compare x 5)) ∧
    0 < LazyArray.len fromDataU8 (LazyArray.new [5]) :=
  ⟨by simp [LazyArray.binary_search_probes, binarySearchLoopProbes, LazyArray.len,
     LazyArray.new, fromDataU8],
   c10_probe_indices_in_bounds fromDataU8 (LazyArray.new [5]) (fun x => compare x 5) 0
     (by simp [LazyArray.binary_search_probes, binarySearchLoopProbes, LazyArray.len,
       LazyArray.new, fromDataU8])⟩

end Parser
